import Mathlib

/-!
Verification of the cryptgo polling/streaming core against its source:
`pkg/api/getCoinData.go` (source adapters) and `pkg/display/coin/coin.go`
(event multiplexer / render loop).  Go `float64` values are embedded as `ℚ`,
Go maps as association lists with overwrite-on-insert, and channel/context
interaction as explicit state passing.
-/

namespace Cryptgo

/-- Decimal digit value of a character, `none` on a non-digit. -/
def digitVal? (c : Char) : Option Nat :=
  if '0' ≤ c ∧ c ≤ '9' then some (c.toNat - '0'.toNat) else none

/-- Value of a nonempty all-digit character run (`none` otherwise). -/
def digitsVal? (cs : List Char) (acc : Nat) : Option Nat :=
  match cs with
  | [] => some acc
  | c :: rest =>
      match digitVal? c with
      | some d => digitsVal? rest (acc * 10 + d)
      | none => none

/-- Splits a character run at its first `'.'`. -/
def splitDot : List Char → List Char × Option (List Char)
  | [] => ([], none)
  | c :: rest =>
      if c = '.' then ([], some rest)
      else
        let (a, b) := splitDot rest
        (c :: a, b)

/-- Modelled from the spec: `strconv.ParseFloat` (Go standard library, used by
both source files) restricted to plain signed decimal literals, the only forms
appearing in the transported data.  Returns `none` exactly when the string is
not such a literal (e.g. `""`, `"abc"`). -/
def parseFloat? (s : String) : Option ℚ :=
  let withSign : List Char → Option ℚ := fun body =>
    let (intPart, fracPart) := splitDot body
    match intPart, fracPart with
    | [], _ => none
    | _, some [] => none
    | _, none => (digitsVal? intPart 0).map (fun n => (n : ℚ))
    | _, some frac =>
        match digitsVal? intPart 0, digitsVal? frac 0 with
        | some n, some f => some ((n : ℚ) + (f : ℚ) / (10 : ℚ) ^ frac.length)
        | _, _ => none
  match s.data with
  | [] => none
  | '-' :: rest => (withSign rest).map (fun q => -q)
  | '+' :: rest => withSign rest
  | cs => withSign cs

/-- Go `int(x)` conversion: truncation toward zero. -/
def goInt (q : ℚ) : Int :=
  if q < 0 then ⌈q⌉ else ⌊q⌋

/-- Modelled from the spec: `utils.MinFloat64` (pkg/utils, not under src).
Per §4.3 the History Adapter "computes the minimum" of the decoded series;
defined as the minimum of a nonempty list (0 on the empty list, a case every
theorem below excludes). -/
def MinFloat64 : List ℚ → ℚ
  | [] => 0
  | x :: xs => xs.foldl min x

/-- Modelled from the spec: `utils.MaxFloat64` (pkg/utils, not under src).
Per §4.3 the History Adapter "computes the maximum" of the decoded series;
defined as the maximum of a nonempty list (0 on the empty list). -/
def MaxFloat64 : List ℚ → ℚ
  | [] => 0
  | x :: xs => xs.foldl max x

/-- Structure `CoinData` from `getCoinData.go` lines 39-47, restricted to the fields the
claims touch.  `favourites` embeds the Go `map[string]float64` as an
association list with unique keys. -/
structure CoinData where
  type : String
  priceHistory : List ℚ
  minPrice : ℚ
  maxPrice : ℚ
  favourites : List (String × ℚ)
  deriving Repr, DecidableEq

/-- Association-list embedding of Go map assignment `m[k] = v`: replaces the
value at an existing key, otherwise adds the key.  The value type is a
parameter, covering both `map[string]float64` (favourites) and
`map[string]string` (the live-stream message). -/
def mapInsert {β : Type} (m : List (String × β)) (k : String) (v : β) : List (String × β) :=
  match m with
  | [] => [(k, v)]
  | (k', v') :: rest => if k' = k then (k, v) :: rest else (k', v') :: mapInsert rest k v

/-- Association-list embedding of Go map lookup. -/
def mapLookup {β : Type} (m : List (String × β)) (k : String) : Option β :=
  match m with
  | [] => none
  | (k', v') :: rest => if k' = k then some v' else mapLookup rest k

/-- Keys of the association-list map. -/
def mapKeys {β : Type} (m : List (String × β)) : List String :=
  m.map Prod.fst

/-- The `GetFavouritePrices` aggregation loop, `getCoinData.go` lines 95-98: for
each response entry, uppercase its symbol and write its current price into the
favourites map (Go map assignment, so a later duplicate overwrites an earlier
one).  The response is embedded as the list of `(Symbol, CurrentPrice)` pairs
in response order. -/
def favouriteData (resp : List (String × ℚ)) : List (String × ℚ) :=
  resp.foldl (fun m val => mapInsert m val.1.toUpper val.2) []

/-- The `Snapshot` result assembled at `getCoinData.go` lines 101-104. -/
def favouritesResult (resp : List (String × ℚ)) : CoinData :=
  { type := "FAVOURITES", priceHistory := [], minPrice := 0, maxPrice := 0,
    favourites := favouriteData resp }

/-- The `GetCoinHistory` success path, `getCoinData.go` lines 173-200: from the
decoded price series, compute min and max, subtract the min from every point,
and assemble the `History` result carrying the zeroed series plus the original
min/max.  `S` is the decoded series (each point already parsed). -/
def historyResult (S : List ℚ) : CoinData :=
  let min := MinFloat64 S
  let max := MaxFloat64 S
  { type := "HISTORY", priceHistory := S.map (fun val => val - min),
    minPrice := min, maxPrice := max, favourites := [] }

/-- The request URL built each cycle at `getCoinData.go` line 148 from the
identifier and the current interval. -/
def historyURL (id i : String) : String :=
  "https://api.coincap.io/v2/assets/" ++ id ++ "/history?interval=" ++ i

/-- Modelled from the spec: the interval channel's creation and its sender are
not under src (only `GetCoinHistory`, the receiver, is).  §3 IntervalSelector:
"updated asynchronously via a dedicated one-slot channel; at most one value may
be pending unconsumed, and a pending update always wins, overriding the
previous interval on the next cycle" — a one-slot overwrite holder, whose state
is the pending update (if any).  Sending overwrites whatever is pending. -/
def sendIntervalUpdate (slot : Option String) (v : String) : Option String :=
  let _ := slot
  some v

/-- The non-blocking drain at `getCoinData.go` lines 137-146: if the
cancellation signal has fired the cycle aborts (`none`); otherwise at most one
pending interval update is consumed and becomes the current interval `i`, and
if none is pending `i` is kept.  Returns the slot state and interval after the
drain. -/
def drainInterval (ctxDone : Bool) (slot : Option String) (i : String) :
    Option (Option String × String) :=
  if ctxDone then none
  else
    match slot with
    | some interval => some (none, interval)
    | none => some (none, i)

/-! ### Event multiplexer / render loop, `pkg/display/coin/coin.go` -/

/-- Constant `UP_ARROW`, `coin.go` line 16. -/
def UP_ARROW : String := "▲"

/-- Constant `DOWN_ARROW`, `coin.go` line 17. -/
def DOWN_ARROW : String := "▼"

/-- The price-change cell of the price box (`coin.go` lines 257-267): either
the string `"NA"` or a directional glyph with a magnitude.  Go formats the
magnitude with `%.2f`; the embedding keeps the glyph and the numeric magnitude
separate instead of the formatted string. -/
inductive ChangeDisplay where
  | na : ChangeDisplay
  | arrow (glyph : String) (magnitude : ℚ) : ChangeDisplay
  deriving Repr, DecidableEq

/-- The display state the claims touch, from `DisplayCoin`'s page
(`coin.go`).  Labels and the price cell are Go strings built with
`fmt.Sprintf("%.2f %s", value, currency)`; the embedding keeps them as
(numeric value, currency string) pairs before formatting. -/
structure CoinPage where
  valueGraphData : List ℚ
  labelMax : ℚ × String
  labelMin : ℚ × String
  volumeGaugePercent : Int
  priceBoxPrice : ℚ × String
  priceBoxChange : ChangeDisplay
  deriving Repr, DecidableEq

/-- A concrete page state used by closed counterexamples and witnesses (the
claims quantify over the prior page state). -/
def samplePage : CoinPage :=
  { valueGraphData := [], labelMax := (0, "USD $"), labelMin := (0, "USD $"),
    volumeGaugePercent := 37, priceBoxPrice := (0, "USD $"), priceBoxChange := .na }

/-- The `"HISTORY"` case of the data-channel handler, `coin.go` lines
198-203: the chart series becomes the received series, and the Max/Min labels
are recomputed as `utils.MaxFloat64(price...)/currencyVal` and
`utils.MinFloat64(price...)/currencyVal` over the received (already zeroed)
series — `data.MinPrice` and `data.MaxPrice` are not read. -/
def applyHistory (currencyVal : ℚ) (currency : String) (page : CoinPage)
    (data : CoinData) : CoinPage :=
  let price := data.priceHistory
  { page with
    valueGraphData := price,
    labelMax := (MaxFloat64 price / currencyVal, currency),
    labelMin := (MinFloat64 price / currencyVal, currency) }

/-- The price-channel handler, `coin.go` lines 179-184:
`p, _ := strconv.ParseFloat(data, 64)` ignores the parse error (Go yields `0`
on error), and the price cell becomes `p/currencyVal` with the active
currency. -/
def applyPrice (currencyVal : ℚ) (currency : String) (page : CoinPage)
    (data : String) : CoinPage :=
  let p := (parseFloat? data).getD 0
  { page with priceBoxPrice := (p / currencyVal, currency) }

/-- The volume-gauge update inside the `"ASSET"` case, `coin.go` lines
237-246, given the raw `VolumeUsd24Hr` and `MarketCapUsd` strings (`mCap` is
the value parsed at line 210, `0` when that parse failed, as in Go): when the
volume parses, the market cap is positive, and `int((vol/mCap)*100)` lies in
`[0, 100]`, the gauge is set to it; otherwise the gauge keeps its prior
value. -/
def updateVolumeGauge (prior : Int) (volumeStr mcapStr : String) : Int :=
  let mCap := (parseFloat? mcapStr).getD 0
  match parseFloat? volumeStr with
  | none => prior
  | some vol =>
      if 0 < mCap then
        let percent := goInt ((vol / mCap) * 100)
        if percent ≤ 100 ∧ 0 ≤ percent then percent else prior
      else prior

/-- The price-box change update inside the `"ASSET"` case, `coin.go` lines
257-267: `"NA"` when `ChangePercent24Hr` does not parse, else the down glyph
with `-1*c` for negative `c` and the up glyph with `c` otherwise. -/
def changeIndicator (changeStr : String) : ChangeDisplay :=
  match parseFloat? changeStr with
  | none => .na
  | some c => if c < 0 then .arrow DOWN_ARROW (-1 * c) else .arrow UP_ARROW c

/-- The `<Enter>` handler of the currency-picker overlay, `coin.go` lines
110-123, acting on the active `(currency, currencyVal)` pair.  Each row is the
currency table row `[symbol, sign, name, rate]`; when the selected row's rate
fails to parse, the pair is reset to `("USD $", 0)`.  The handler is a total
function: no error leaves the loop. -/
def commitCurrencyEnter (currency : String) (currencyVal : ℚ)
    (rows : List (List String)) (selectedRow : Nat) : String × ℚ :=
  if h : selectedRow < rows.length then
    let row := rows.get ⟨selectedRow, h⟩
    let newCurrency := row.getD 0 "" ++ " " ++ row.getD 1 ""
    match parseFloat? (row.getD 3 "") with
    | some v => (newCurrency, v)
    | none => ("USD $", 0)
  else (currency, currencyVal)

/-! ### Live stream adapter, `getCoinData.go` lines 270-309 -/

/-- The decode at `getCoinData.go` line 296: `c.ReadJSON(&msg)` unmarshals the
inbound JSON object into `msg`, a non-nil `map[string]string` allocated once
outside the loop at line 278.  Go's `json.Unmarshal` reuses a non-nil map,
keeping entries absent from the incoming object and overwriting present ones —
a merge of the incoming pairs into the persistent map. -/
def readJSONMerge (msg incoming : List (String × String)) : List (String × String) :=
  incoming.foldl (fun m kv => mapInsert m kv.1 kv.2) msg

/-- One `GetLivePrice` cycle, `getCoinData.go` lines 296-307: merge the
incoming message into the persistent map, then send `msg[id]` — the map's zero
value `""` when the key is absent.  Returns the new persistent map state and
the sent value. -/
def livePriceStep (msg incoming : List (String × String)) (id : String) :
    List (String × String) × String :=
  let m := readJSONMerge msg incoming
  (m, (mapLookup m id).getD "")

/-- A run of `GetLivePrice` cycles over a list of inbound messages, threading
the persistent map (initially empty, line 278) and collecting the sent
values. -/
def livePriceRun (msg : List (String × String)) (id : String) :
    List (List (String × String)) → List String
  | [] => []
  | incoming :: rest =>
      let step := livePriceStep msg incoming id
      step.2 :: livePriceRun step.1 id rest

/-! ### Cancellation model for the adapter send loops

Time is a global step counter; `done s` tells whether the cancellation signal
has fired by step `s` (a Go context's `Done` channel stays closed once closed,
so `done` is assumed monotone where it matters).  Each scheduler cycle at tick
`t` samples cancellation at step `2*t` (the scheduler's own check) and again
at step `2*t+1` (the adapter's guarded send), so a signal can fire between the
tick and the send. -/

/-- The error string `ctx.Err()` yields after cancellation. -/
def ctxErr : String := "context canceled"

/-- The guarded send shared by `GetFavouritePrices` (lines 106-112),
`GetCoinHistory` (lines 202-208) and `GetLivePrice` (lines 302-307): a two-way
`select` waiting simultaneously on `ctx.Done()` and the channel send.  Go's
`select` takes the one ready case, blocks while neither is ready (`none`
here), and when both are ready picks uniformly at random — `pick` is that
random draw (`true` = the send case).  Returns, once resolved,
(sent value, reported error): the cancellation case sets `finalErr` to
`ctx.Err()` and sends nothing. -/
def selectSend {α : Type} (doneReady sendReady pick : Bool) (d : α) :
    Option (Option α × Option String) :=
  if doneReady && sendReady then
    some (if pick then (some d, none) else (none, some ctxErr))
  else if doneReady then some (none, some ctxErr)
  else if sendReady then some (some d, none)
  else none

/-- One adapter cycle at tick `t`, abstracting the fetch (`d t` is the result
the cycle would send) and performing the guarded send with cancellation,
receiver readiness and the select's random draw sampled at step `2*t+1` (the
instant the select resolves; a select whose sampled step has neither case
ready is modelled as blocking forever, starving the scheduler — the accepted
limitation of §4.1).  A sent value is stamped with its send step; `none` is
the blocked cycle. -/
def sendCycle {α : Type} (done recvReady pick : Nat → Bool) (d : Nat → α) (t : Nat) :
    Option (Option (Nat × α) × Option String) :=
  match selectSend (done (2 * t + 1)) (recvReady (2 * t + 1)) (pick (2 * t + 1)) (d t) with
  | none => none
  | some (none, e) => some (none, e)
  | some (some x, e) => some (some (2 * t + 1, x), e)

/-- Modelled from the spec: `utils.LoopTick` (pkg/utils, not under src).
§4.1: the scheduler invokes the callback once per tick until either the
cancellation signal fires — it stops and returns the cancellation's reason —
or the callback reports an error — it stops immediately, no further ticks, and
returns that error; a callback that blocks indefinitely starves all subsequent
ticks.  `fuel` bounds the observed ticks; returns the stamped sends of the
whole run and the terminal error, if the run ended within `fuel` ticks. -/
def loopTick {α : Type} (done : Nat → Bool)
    (cycle : Nat → Option (Option (Nat × α) × Option String)) :
    Nat → Nat → List (Nat × α) × Option String
  | 0, _ => ([], none)
  | fuel + 1, t =>
      if done (2 * t) then ([], some ctxErr)
      else
        match cycle t with
        | none => ([], none)
        | some (s, some e) => (s.toList, some e)
        | some (s, none) =>
            let rest := loopTick done cycle fuel (t + 1)
            (s.toList ++ rest.1, rest.2)

/-! ### Claims -/

/-- C1: if interval updates "7 days" then "30 days" are sent to the History
Adapter's one-slot interval channel and neither has been consumed before the
next tick, that cycle's drain yields the newest value "30 days" and the cycle
issues its request at interval "30 days"; in general a pending update always
overrides the previous interval on the next cycle, and at most one update is
pending (the slot state is a single `Option`). -/
theorem interval_newest_wins (slot0 : Option String) (i0 id : String) :
    drainInterval false (sendIntervalUpdate (sendIntervalUpdate slot0 "7 days") "30 days") i0
      = some (none, "30 days")
    ∧ (∀ (slot' : Option String) (v i : String),
        drainInterval false (sendIntervalUpdate slot' v) i = some (none, v))
    ∧ historyURL id "30 days"
        = "https://api.coincap.io/v2/assets/" ++ id ++ "/history?interval=" ++ "30 days" := by
  exact ⟨rfl, fun _ _ _ => rfl, rfl⟩

/-- C6 counterexample: with active currency "EUR €" and factor 9/10,
committing a selection whose rate field "abc" does not parse yields
("USD $", 0) — the default, not the prior pair. -/
theorem currency_fallback_counterexample :
    commitCurrencyEnter "EUR €" (9 / 10) [["EUR", "€", "Euro", "abc"]] 0 = ("USD $", 0)
    ∧ (("USD $", (0 : ℚ)) ≠ ("EUR €", (9 / 10 : ℚ))) := by
  constructor
  · with_unfolding_all rfl
  · intro h
    exact absurd (congrArg Prod.fst h) (by decide)

/-- C6 amended: when the committed row's conversion-rate field does not parse
as a number, the malformed selection is absorbed locally by resetting the
active pair to the default ("USD $", 0) — not the prior currency and factor —
and no error is propagated out of the multiplexer loop (the handler is a total
function on the display state). -/
theorem currency_fallback_amended (currency : String) (currencyVal : ℚ)
    (rows : List (List String)) (sel : Nat) (h : sel < rows.length)
    (hp : parseFloat? ((rows.get ⟨sel, h⟩).getD 3 "") = none) :
    commitCurrencyEnter currency currencyVal rows sel = ("USD $", 0) := by
  unfold commitCurrencyEnter
  rw [dif_pos h]
  simp only [hp]

/-- C6 amended witness at the counterexample input. -/
theorem currency_fallback_amended_witness :
    0 < ([["EUR", "€", "Euro", "abc"]] : List (List String)).length
    ∧ parseFloat? ((([["EUR", "€", "Euro", "abc"]] : List (List String)).get
        ⟨0, by decide⟩).getD 3 "") = none
    ∧ commitCurrencyEnter "JPY ¥" 155 [["EUR", "€", "Euro", "abc"]] 0 = ("USD $", 0) := by
  have hp : parseFloat? ((([["EUR", "€", "Euro", "abc"]] : List (List String)).get
      ⟨0, by decide⟩).getD 3 "") = none := by with_unfolding_all rfl
  exact ⟨by decide, hp,
    currency_fallback_amended "JPY ¥" 155 [["EUR", "€", "Euro", "abc"]] 0 (by decide) hp⟩

/-- C7 counterexample: volume 2000 and market cap 1000 give a percentage of
200; the claimed clamp min(100, max(0, ·)) would display 100, but the code
leaves the gauge at its prior value 37. -/
theorem volume_gauge_clamp_counterexample :
    updateVolumeGauge 37 "2000" "1000" = 37
    ∧ min 100 (max 0 (goInt (100 * (2000 : ℚ) / 1000))) = 100
    ∧ (37 : Int) ≠ 100 := by
  refine ⟨by with_unfolding_all rfl, ?_, by decide⟩
  have h : goInt (100 * (2000 : ℚ) / 1000) = 200 := by with_unfolding_all rfl
  rw [h]
  decide

/-- C7 amended: for a Detail result whose volume and market-cap fields parse
and whose market cap is positive, the gauge is set to the truncated percentage
`int((vol/mcap)*100)` — which then equals the claimed clamp
min(100, max(0, ·)) — only when that percentage already lies in [0,100];
out-of-range percentages leave the gauge unchanged (discarded, not clamped). -/
theorem volume_gauge_amended (prior : Int) (vs ms : String) (vol mcap : ℚ)
    (hv : parseFloat? vs = some vol) (hm : parseFloat? ms = some mcap)
    (hpos : 0 < mcap) :
    (0 ≤ goInt (vol / mcap * 100) → goInt (vol / mcap * 100) ≤ 100 →
      updateVolumeGauge prior vs ms = min 100 (max 0 (goInt (vol / mcap * 100))))
    ∧ ((goInt (vol / mcap * 100) < 0 ∨ 100 < goInt (vol / mcap * 100)) →
      updateVolumeGauge prior vs ms = prior) := by
  unfold updateVolumeGauge
  rw [hv, hm]
  simp only [Option.getD_some]
  rw [if_pos hpos]
  constructor
  · intro h0 h100
    rw [if_pos ⟨h100, h0⟩]
    omega
  · intro h
    rw [if_neg]
    omega

/-- C7 amended witness: volume 500, market cap 1000 — percentage 50, in
range, so the gauge is set and equals the clamp. -/
theorem volume_gauge_amended_witness :
    parseFloat? "500" = some 500 ∧ parseFloat? "1000" = some 1000
    ∧ (0 : ℚ) < 1000 ∧ updateVolumeGauge 0 "500" "1000" = 50 := by
  have hv : parseFloat? "500" = some 500 := by with_unfolding_all rfl
  have hm : parseFloat? "1000" = some 1000 := by with_unfolding_all rfl
  have h50 : goInt ((500 : ℚ) / 1000 * 100) = 50 := by with_unfolding_all rfl
  have h := (volume_gauge_amended 0 "500" "1000" 500 1000 hv hm (by norm_num)).1
  rw [h50] at h
  refine ⟨hv, hm, by norm_num, (h (by norm_num) (by norm_num)).trans (by decide)⟩

/-- C8: applying a Detail result with volume 500 and market cap 1000 sets the
volume gauge to 50, and one with market cap 0 leaves the gauge at its prior
value for every prior value (the division is guarded by `mCap > 0`). -/
theorem volume_gauge_scenario (prior : Int) :
    updateVolumeGauge prior "500" "1000" = 50
    ∧ updateVolumeGauge prior "500" "0" = prior := by
  constructor
  · with_unfolding_all rfl
  · with_unfolding_all rfl

/-- C9: when the 24h percentage-change field parses to `c`, the change
indicator shows the down glyph with magnitude `-c` for negative `c` and the up
glyph with magnitude `c` for positive `c`. -/
theorem change_indicator_glyphs (s : String) (c : ℚ) (h : parseFloat? s = some c) :
    (c < 0 → changeIndicator s = .arrow DOWN_ARROW (-c))
    ∧ (0 < c → changeIndicator s = .arrow UP_ARROW c) := by
  constructor
  · intro hc
    simp only [changeIndicator, h]
    rw [if_pos hc, neg_one_mul]
  · intro hc
    simp only [changeIndicator, h]
    rw [if_neg (not_lt.mpr hc.le)]

/-- C9 witness at the spec's scenario values -3.25 and 3.25. -/
theorem change_indicator_glyphs_witness :
    parseFloat? "-3.25" = some (-(13 / 4) : ℚ)
    ∧ changeIndicator "-3.25" = .arrow DOWN_ARROW (13 / 4)
    ∧ parseFloat? "3.25" = some ((13 / 4) : ℚ)
    ∧ changeIndicator "3.25" = .arrow UP_ARROW (13 / 4) := by
  have h1 : parseFloat? "-3.25" = some (-(13 / 4) : ℚ) := by with_unfolding_all rfl
  have h2 : parseFloat? "3.25" = some ((13 / 4) : ℚ) := by with_unfolding_all rfl
  refine ⟨h1, ?_, h2, (change_indicator_glyphs "3.25" (13 / 4) h2).2 (by norm_num)⟩
  have := (change_indicator_glyphs "-3.25" (-(13 / 4)) h1).1 (by norm_num)
  simpa using this

/-- C3 counterexample: Go's `select` picks uniformly among ready cases, so a
send can complete after cancellation fires.  Execution: cancellation fires at
step 1 (between cycle 0's scheduler check at step 0 and its send at step 1), a
receiver is ready at step 1, and the random draw picks the send — the trace
contains a send stamped 1, at (not before) the cancellation step, refuting
"zero sends afterward". -/
theorem cancellation_send_race_counterexample :
    (fun s => decide (1 ≤ s)) 1 = true
    ∧ (loopTick (fun s => decide (1 ≤ s))
        (sendCycle (fun s => decide (1 ≤ s)) (fun _ => true) (fun _ => true)
          (fun _ => favouritesResult [])) 2 0).1 = [(1, favouritesResult [])]
    ∧ ¬ (∀ p ∈ (loopTick (fun s => decide (1 ≤ s))
        (sendCycle (fun s => decide (1 ≤ s)) (fun _ => true) (fun _ => true)
          (fun _ => favouritesResult [])) 2 0).1, p.1 < 1) := by
  have ht : (loopTick (fun s => decide (1 ≤ s))
      (sendCycle (fun s => decide (1 ≤ s)) (fun _ => true) (fun _ => true)
        (fun _ => favouritesResult [])) 2 0).1 = [(1, favouritesResult [])] := by
    with_unfolding_all rfl
  refine ⟨rfl, ht, fun h => ?_⟩
  have hm := h (1, favouritesResult []) (ht ▸ List.mem_singleton.mpr rfl)
  exact absurd hm (by norm_num)

/-- C3 amended: every adapter send is guarded by a simultaneous `select` on
the cancellation signal; if cancellation fires (at step `k`, and it stays
fired) while the send is still blocked — no receiver ready from then on —
then the send never completes: every send in the whole run happened strictly
before `k`, and a cycle whose guarded send is reached at or after `k` makes
the adapter exit returning the cancellation reason instead of sending.  (When
a receiver is ready simultaneously with cancellation, the select's uniform
draw may still let the one in-flight send complete, as the counterexample
shows.) -/
theorem cancellation_blocked_send_no_sends {α : Type}
    (done recvReady pick : Nat → Bool) (d : Nat → α) (k : Nat)
    (mono : ∀ a b, a ≤ b → done a = true → done b = true)
    (hk : done k = true)
    (hr : ∀ s, k ≤ s → recvReady s = false) :
    ∀ fuel t,
      (∀ p ∈ (loopTick done (sendCycle done recvReady pick d) fuel t).1, p.1 < k)
      ∧ (0 < fuel → k ≤ 2 * t + 1 →
          (loopTick done (sendCycle done recvReady pick d) fuel t).2 = some ctxErr) := by
  intro fuel
  induction fuel with
  | zero =>
      intro t
      exact ⟨by simp [loopTick], fun h0 => absurd h0 (by norm_num)⟩
  | succ n ih =>
      intro t
      by_cases h2t : done (2 * t) = true
      · constructor
        · intro p hp
          simp [loopTick, h2t] at hp
        · intro _ _
          simp [loopTick, h2t]
      · have h2tk : 2 * t < k := by
          by_contra hle
          push_neg at hle
          exact absurd (mono k (2 * t) hle hk) (by simp [h2t])
        by_cases hrcv : recvReady (2 * t + 1) = true
        · -- a receiver is ready at the send step, hence that step predates k
          have hlt : 2 * t + 1 < k := by
            by_contra hle
            push_neg at hle
            rw [hr (2 * t + 1) hle] at hrcv
            exact Bool.false_ne_true hrcv
          by_cases hd1 : done (2 * t + 1) = true
          · by_cases hp1 : pick (2 * t + 1) = true
            · constructor
              · intro p hp
                simp only [loopTick, h2t, Bool.false_eq_true, if_false, sendCycle,
                  selectSend, hd1, hrcv, hp1, Bool.and_self, if_true,
                  Option.toList_some, List.cons_append, List.nil_append,
                  List.mem_cons] at hp
                rcases hp with h | h
                · rw [h]
                  exact hlt
                · exact ((ih (t + 1)).1) p h
              · intro _ hk2
                omega
            · constructor
              · intro p hp
                simp [loopTick, h2t, sendCycle, selectSend, hd1, hrcv, hp1] at hp
              · intro _ hk2
                omega
          · constructor
            · intro p hp
              simp only [loopTick, h2t, Bool.false_eq_true, if_false, sendCycle,
                selectSend, hd1, hrcv, Bool.false_and, Bool.and_true,
                Option.toList_some, List.cons_append, List.nil_append,
                List.mem_cons, if_true] at hp
              rcases hp with h | h
              · rw [h]
                exact hlt
              · exact ((ih (t + 1)).1) p h
            · intro _ hk2
              omega
        · by_cases hd1 : done (2 * t + 1) = true
          · constructor
            · intro p hp
              simp [loopTick, h2t, sendCycle, selectSend, hd1, hrcv] at hp
            · intro _ _
              simp [loopTick, h2t, sendCycle, selectSend, hd1, hrcv]
          · -- neither case ready: the select blocks, nothing is sent
            constructor
            · intro p hp
              simp [loopTick, h2t, sendCycle, selectSend, hd1, hrcv] at hp
            · intro _ hk2
              exact absurd (mono k (2 * t + 1) hk2 hk) (by simp [hd1])

/-- C3 amended witness: cancellation fired at step 0 and no receiver is ever
ready; a one-tick run performs no sends and returns the cancellation
reason. -/
theorem cancellation_blocked_send_no_sends_witness :
    (fun _ : Nat => true) 0 = true
    ∧ (∀ p ∈ (loopTick (fun _ => true)
        (sendCycle (fun _ => true) (fun _ => false) (fun _ => true)
          (fun _ => favouritesResult [])) 1 0).1, p.1 < 0)
    ∧ (loopTick (fun _ => true)
        (sendCycle (fun _ => true) (fun _ => false) (fun _ => true)
          (fun _ => favouritesResult [])) 1 0).2 = some ctxErr := by
  have h := cancellation_blocked_send_no_sends (fun _ => true) (fun _ => false)
    (fun _ => true) (fun _ => favouritesResult []) 0
    (fun _ _ _ hd => hd) rfl (fun _ _ => rfl) 1 0
  exact ⟨rfl, h.1, h.2 (by norm_num) (by norm_num)⟩

/-! ### Minimum/maximum lemmas for the series transformations -/

lemma foldl_min_le_init (xs : List ℚ) : ∀ x : ℚ, xs.foldl min x ≤ x := by
  induction xs with
  | nil => intro x; simp
  | cons z zs ih =>
      intro x
      simpa using le_trans (ih (min x z)) (min_le_left x z)

lemma foldl_min_le_mem (xs : List ℚ) : ∀ (x y : ℚ), y ∈ xs → xs.foldl min x ≤ y := by
  induction xs with
  | nil => intro x y hy; cases hy
  | cons z zs ih =>
      intro x y hy
      rcases List.mem_cons.mp hy with h | h
      · subst h
        simpa using le_trans (foldl_min_le_init zs (min x y)) (min_le_right x y)
      · simpa using ih (min x z) y h

lemma foldl_min_sub (c : ℚ) (xs : List ℚ) :
    ∀ x : ℚ, (xs.map (fun v => v - c)).foldl min (x - c) = xs.foldl min x - c := by
  induction xs with
  | nil => intro x; simp
  | cons z zs ih =>
      intro x
      simp only [List.map_cons, List.foldl_cons]
      rw [min_sub_sub_right, ih (min x z)]

lemma foldl_max_sub (c : ℚ) (xs : List ℚ) :
    ∀ x : ℚ, (xs.map (fun v => v - c)).foldl max (x - c) = xs.foldl max x - c := by
  induction xs with
  | nil => intro x; simp
  | cons z zs ih =>
      intro x
      simp only [List.map_cons, List.foldl_cons]
      rw [max_sub_sub_right, ih (max x z)]

lemma MinFloat64_le (S : List ℚ) : ∀ y ∈ S, MinFloat64 S ≤ y := by
  match S with
  | [] => intro y hy; cases hy
  | x :: xs =>
      intro y hy
      rcases List.mem_cons.mp hy with h | h
      · subst h
        exact foldl_min_le_init xs y
      · exact foldl_min_le_mem xs x y h

lemma MinFloat64_map_sub (S : List ℚ) (h : S ≠ []) (c : ℚ) :
    MinFloat64 (S.map (fun v => v - c)) = MinFloat64 S - c := by
  obtain ⟨x, xs, rfl⟩ := List.exists_cons_of_ne_nil h
  simpa [MinFloat64] using foldl_min_sub c xs x

lemma MaxFloat64_map_sub (S : List ℚ) (h : S ≠ []) (c : ℚ) :
    MaxFloat64 (S.map (fun v => v - c)) = MaxFloat64 S - c := by
  obtain ⟨x, xs, rfl⟩ := List.exists_cons_of_ne_nil h
  simpa [MaxFloat64] using foldl_max_sub c xs x

/-- C2: the emitted History result's series is the fetched series `S` with the
minimum of `S` subtracted from every point, its minimum is 0 and every
transported value is nonnegative, the result carries the original minimum and
maximum of `S`, and adding the transported minimum back to every point
reconstructs `S` (`series[i] + min = S[i]` for all `i`). -/
theorem history_zeroed (S : List ℚ) (h : S ≠ []) :
    (historyResult S).priceHistory = S.map (fun v => v - MinFloat64 S)
    ∧ MinFloat64 ((historyResult S).priceHistory) = 0
    ∧ (∀ x ∈ (historyResult S).priceHistory, 0 ≤ x)
    ∧ (historyResult S).minPrice = MinFloat64 S
    ∧ (historyResult S).maxPrice = MaxFloat64 S
    ∧ (historyResult S).priceHistory.map (fun v => v + (historyResult S).minPrice) = S := by
  refine ⟨rfl, ?_, ?_, rfl, rfl, ?_⟩
  · show MinFloat64 (S.map (fun v => v - MinFloat64 S)) = 0
    rw [MinFloat64_map_sub S h, sub_self]
  · intro x hx
    show (0 : ℚ) ≤ x
    rcases List.mem_map.mp hx with ⟨v, hv, rfl⟩
    have := MinFloat64_le S v hv
    linarith
  · show (S.map (fun v => v - MinFloat64 S)).map (fun v => v + MinFloat64 S) = S
    rw [List.map_map]
    have : ((fun v => v + MinFloat64 S) ∘ fun v => v - MinFloat64 S) = id := by
      funext v
      simp
    rw [this, List.map_id]

/-- C2 witness at the series [10, 5, 30]. -/
theorem history_zeroed_witness :
    ([10, 5, 30] : List ℚ) ≠ []
    ∧ (historyResult [10, 5, 30]).priceHistory = [5, 0, 25]
    ∧ (historyResult [10, 5, 30]).minPrice = 5
    ∧ (historyResult [10, 5, 30]).maxPrice = 30
    ∧ MinFloat64 ((historyResult [10, 5, 30]).priceHistory) = 0
    ∧ (historyResult [10, 5, 30]).priceHistory.map
        (fun v => v + (historyResult [10, 5, 30]).minPrice) = [10, 5, 30] := by
  have h := history_zeroed [10, 5, 30] (by simp)
  exact ⟨by simp, by with_unfolding_all rfl, by with_unfolding_all rfl,
    by with_unfolding_all rfl, h.2.1, h.2.2.2.2.2⟩

/-- C5 counterexample: applying the History result for the series [10, 30]
(MinPrice 10, MaxPrice 30) with conversion factor 1 sets the Max label to 20 —
the maximum of the zeroed series — and the Min label to 0, not the transported
MaxPrice 30 and MinPrice 10. -/
theorem history_labels_counterexample :
    (applyHistory 1 "USD $" samplePage (historyResult [10, 30])).labelMax = (20, "USD $")
    ∧ (historyResult [10, 30]).maxPrice = 30
    ∧ (historyResult [10, 30]).minPrice = 10
    ∧ (applyHistory 1 "USD $" samplePage (historyResult [10, 30])).labelMax
        ≠ ((historyResult [10, 30]).maxPrice / 1, "USD $")
    ∧ (applyHistory 1 "USD $" samplePage (historyResult [10, 30])).labelMin
        ≠ ((historyResult [10, 30]).minPrice / 1, "USD $") := by
  have hmax : (applyHistory 1 "USD $" samplePage (historyResult [10, 30])).labelMax
      = (20, "USD $") := by with_unfolding_all rfl
  have hmin : (applyHistory 1 "USD $" samplePage (historyResult [10, 30])).labelMin
      = (0, "USD $") := by with_unfolding_all rfl
  have h30 : ((historyResult [10, 30]).maxPrice / 1, ("USD $" : String)) = (30, "USD $") := by
    with_unfolding_all rfl
  have h10 : ((historyResult [10, 30]).minPrice / 1, ("USD $" : String)) = (10, "USD $") := by
    with_unfolding_all rfl
  refine ⟨hmax, by with_unfolding_all rfl, by with_unfolding_all rfl, ?_, ?_⟩
  · rw [hmax, h30]
    intro heq
    exact absurd (congrArg Prod.fst heq) (by norm_num)
  · rw [hmin, h10]
    intro heq
    exact absurd (congrArg Prod.fst heq) (by norm_num)

/-- C5 amended: applying a History result replaces the chart series with the
zeroed series, and sets the displayed Max and Min labels to the maximum and
minimum of the received (zeroed) series scaled by the active conversion
factor — equal to (MaxPrice − MinPrice)/factor and 0 — rather than to the
transported original MinPrice and MaxPrice. -/
theorem history_labels_amended (S : List ℚ) (h : S ≠ []) (cv : ℚ)
    (currency : String) (page : CoinPage) :
    (applyHistory cv currency page (historyResult S)).valueGraphData
        = S.map (fun v => v - MinFloat64 S)
    ∧ (applyHistory cv currency page (historyResult S)).labelMax
        = (((historyResult S).maxPrice - (historyResult S).minPrice) / cv, currency)
    ∧ (applyHistory cv currency page (historyResult S)).labelMin = (0, currency) := by
  refine ⟨rfl, ?_, ?_⟩
  · show (MaxFloat64 (S.map (fun v => v - MinFloat64 S)) / cv, currency) = _
    rw [MaxFloat64_map_sub S h]
    rfl
  · show (MinFloat64 (S.map (fun v => v - MinFloat64 S)) / cv, currency) = _
    rw [MinFloat64_map_sub S h, sub_self, zero_div]

/-- C5 amended witness: series [10, 30] with conversion factor 2. -/
theorem history_labels_amended_witness :
    ([10, 30] : List ℚ) ≠ []
    ∧ (applyHistory 2 "EUR €" samplePage (historyResult [10, 30])).valueGraphData = [0, 20]
    ∧ (applyHistory 2 "EUR €" samplePage (historyResult [10, 30])).labelMax = (10, "EUR €")
    ∧ (applyHistory 2 "EUR €" samplePage (historyResult [10, 30])).labelMin = (0, "EUR €") := by
  have h := history_labels_amended [10, 30] (by simp) 2 "EUR €" samplePage
  refine ⟨by simp, ?_, ?_, h.2.2⟩
  · rw [h.1]
    with_unfolding_all rfl
  · rw [h.2.1]
    with_unfolding_all rfl

/-! ### Association-list lemmas for the snapshot map -/

lemma mapLookup_mapInsert {β : Type} (m : List (String × β)) (k : String) (v : β) (q : String) :
    mapLookup (mapInsert m k v) q = if q = k then some v else mapLookup m q := by
  induction m with
  | nil =>
      by_cases h : q = k
      · subst h
        simp [mapInsert, mapLookup]
      · have h' : ¬ k = q := fun hk => h hk.symm
        simp [mapInsert, mapLookup, h, h']
  | cons hd tl ih =>
      obtain ⟨a, b⟩ := hd
      by_cases hak : a = k
      · subst hak
        simp only [mapInsert, if_pos rfl]
        by_cases haq : a = q
        · subst haq
          simp [mapLookup]
        · have h' : ¬ q = a := fun hq => haq hq.symm
          simp [mapLookup, haq, h']
      · simp only [mapInsert, if_neg hak]
        by_cases haq : a = q
        · subst haq
          have h' : ¬ a = k := hak
          simp [mapLookup, h']
        · have h' : ¬ q = a := fun hq => haq hq.symm
          simp [mapLookup, haq, ih]

lemma mapKeys_mapInsert {β : Type} (m : List (String × β)) (k : String) (v : β) :
    mapKeys (mapInsert m k v) =
      if k ∈ mapKeys m then mapKeys m else mapKeys m ++ [k] := by
  induction m with
  | nil => simp [mapInsert, mapKeys]
  | cons hd tl ih =>
      obtain ⟨a, b⟩ := hd
      by_cases hak : a = k
      · subst hak
        simp [mapInsert, mapKeys]
      · have hka : ¬ k = a := fun h => hak h.symm
        simp only [mapInsert, if_neg hak, mapKeys, List.map_cons]
        by_cases hm : k ∈ mapKeys tl
        · simp [mapKeys] at ih hm
          simp [ih, hm, List.mem_cons, hka]
        · simp [mapKeys] at ih hm
          simp [ih, hm, List.mem_cons, hka]

lemma nodup_mapKeys_mapInsert {β : Type} (m : List (String × β)) (k : String) (v : β)
    (h : (mapKeys m).Nodup) : (mapKeys (mapInsert m k v)).Nodup := by
  rw [mapKeys_mapInsert]
  by_cases hm : k ∈ mapKeys m
  · simpa [hm]
  · simp only [hm, if_false]
    refine h.append (List.nodup_singleton k) ?_
    intro a ha hb
    simp only [List.mem_singleton] at hb
    subst hb
    exact hm ha

lemma favouriteData_go_nodup (resp : List (String × ℚ)) :
    ∀ acc : List (String × ℚ), (mapKeys acc).Nodup →
      (mapKeys (resp.foldl (fun m val => mapInsert m val.1.toUpper val.2) acc)).Nodup := by
  induction resp with
  | nil => intro acc h; simpa using h
  | cons val rest ih =>
      intro acc h
      simpa using ih (mapInsert acc val.1.toUpper val.2)
        (nodup_mapKeys_mapInsert acc val.1.toUpper val.2 h)

lemma favouriteData_go_lookup (resp : List (String × ℚ)) :
    ∀ (acc : List (String × ℚ)) (s : String),
      mapLookup (resp.foldl (fun m val => mapInsert m val.1.toUpper val.2) acc) s
        = resp.foldl (fun r v => if v.1.toUpper = s then some v.2 else r) (mapLookup acc s) := by
  induction resp with
  | nil => intro acc s; rfl
  | cons v rest ih =>
      intro acc s
      simp only [List.foldl_cons]
      rw [ih]
      congr 1
      rw [mapLookup_mapInsert]
      by_cases h : v.1.toUpper = s
      · rw [if_pos h.symm, if_pos h]
      · rw [if_neg (fun hs => h hs.symm), if_neg h]

lemma foldl_last_filter (s : String) (l : List (String × ℚ)) :
    ∀ r : Option ℚ,
      l.foldl (fun r v => if v.1.toUpper = s then some v.2 else r) r
        = (((l.filter (fun v => v.1.toUpper = s)).getLast?).map Prod.snd).or r := by
  induction l with
  | nil => intro r; rfl
  | cons v rest ih =>
      intro r
      simp only [List.foldl_cons, List.filter_cons]
      by_cases h : v.1.toUpper = s
      · simp only [h, decide_True, if_true, ite_true]
        rw [ih (some v.2)]
        rcases hfl : ((rest.filter (fun v => v.1.toUpper = s)).getLast?) with _ | w
        · simp [List.getLast?_cons, hfl]
        · simp [List.getLast?_cons, hfl]
      · rw [if_neg h, ih r]
        simp [h]

/-- C4: for every batch response (duplicate symbols included), the assembled
Snapshot maps each uppercased symbol to exactly one price: its key list has no
duplicates, and looking up any symbol yields exactly the last value carried by
that symbol (after uppercasing) in response order. -/
theorem snapshot_last_write_wins (resp : List (String × ℚ)) :
    (mapKeys (favouritesResult resp).favourites).Nodup
    ∧ ∀ s, mapLookup (favouritesResult resp).favourites s
        = ((resp.filter (fun v => v.1.toUpper = s)).getLast?).map Prod.snd := by
  constructor
  · exact favouriteData_go_nodup resp [] (by simp [mapKeys])
  · intro s
    show mapLookup (favouriteData resp) s = _
    unfold favouriteData
    rw [favouriteData_go_lookup resp [] s]
    show _ = (((resp.filter (fun v => v.1.toUpper = s)).getLast?).map Prod.snd)
    rw [foldl_last_filter s resp (mapLookup [] s)]
    simp [mapLookup]

lemma mapLookup_readJSONMerge_none (incoming : List (String × String)) :
    ∀ (msg : List (String × String)) (id : String), mapLookup msg id = none →
      (∀ kv ∈ incoming, kv.1 ≠ id) →
      mapLookup (readJSONMerge msg incoming) id = none := by
  induction incoming with
  | nil => intro msg id h _; exact h
  | cons kv rest ih =>
      intro msg id h hall
      show mapLookup (rest.foldl (fun m kv => mapInsert m kv.1 kv.2) (mapInsert msg kv.1 kv.2)) id
          = none
      apply ih (mapInsert msg kv.1 kv.2) id ?_ (fun x hx => hall x (List.mem_cons_of_mem _ hx))
      rw [mapLookup_mapInsert]
      rw [if_neg (fun he => hall kv (List.mem_cons_self _ _) he.symm)]
      exact h

/-- C10 counterexample: the decode map persists across cycles (allocated once
at `getCoinData.go` line 278) and `ReadJSON` merges into it, so after a first
message carrying `("btc", "42.5")`, a second message with no entry for "btc"
still sends the stale "42.5" — not the empty string — and the multiplexer
displays 42.5, not 0. -/
theorem live_price_stale_counterexample :
    livePriceRun [] "btc" [[("btc", "42.5")], []] = ["42.5", "42.5"]
    ∧ ("42.5" : String) ≠ ""
    ∧ (applyPrice 1 "USD $" samplePage "42.5").priceBoxPrice = (85 / 2, "USD $")
    ∧ ((85 / 2 : ℚ), ("USD $" : String)) ≠ ((0 : ℚ), ("USD $" : String)) := by
  refine ⟨by with_unfolding_all rfl, by decide, by with_unfolding_all rfl, fun h => ?_⟩
  exact absurd (congrArg Prod.fst h) (by norm_num)

/-- C10 amended: when a decoded stream message has no entry for the adapter's
identifier AND the identifier has not appeared in any earlier message on this
connection (the persistent decode map still lacks it), `GetLivePrice` still
sends the map's zero value `""`, and the multiplexer, ignoring the parse
error, sets the price cell to 0 in the active currency (instead of skipping
the update or reporting an error); if an earlier message did carry the
identifier, the merge keeps that entry and the stale last price is sent
instead. -/
theorem live_price_missing_id (msg incoming : List (String × String)) (id : String)
    (currencyVal : ℚ) (currency : String) (page : CoinPage)
    (hmsg : mapLookup msg id = none) (hinc : ∀ kv ∈ incoming, kv.1 ≠ id)
    (hcv : currencyVal ≠ 0) :
    (livePriceStep msg incoming id).2 = ""
    ∧ applyPrice currencyVal currency page (livePriceStep msg incoming id).2
        = { page with priceBoxPrice := (0, currency) } := by
  have hs : (livePriceStep msg incoming id).2 = "" := by
    show (mapLookup (readJSONMerge msg incoming) id).getD "" = ""
    rw [mapLookup_readJSONMerge_none incoming msg id hmsg hinc]
    rfl
  refine ⟨hs, ?_⟩
  rw [hs]
  unfold applyPrice
  have hp : parseFloat? "" = none := rfl
  rw [hp]
  simp [zero_div]

/-- C10 witness: an empty persistent map (the connection just opened), an
incoming message carrying only "bitcoin", read by the adapter for "ethereum",
with conversion factor 1. -/
theorem live_price_missing_id_witness :
    mapLookup ([] : List (String × String)) "ethereum" = none
    ∧ (∀ kv ∈ ([("bitcoin", "123")] : List (String × String)), kv.1 ≠ "ethereum")
    ∧ (1 : ℚ) ≠ 0
    ∧ (livePriceStep [] [("bitcoin", "123")] "ethereum").2 = ""
    ∧ applyPrice 1 "USD $" samplePage (livePriceStep [] [("bitcoin", "123")] "ethereum").2
        = { samplePage with priceBoxPrice := (0, "USD $") } := by
  have hmsg : mapLookup ([] : List (String × String)) "ethereum" = none := rfl
  have hinc : ∀ kv ∈ ([("bitcoin", "123")] : List (String × String)), kv.1 ≠ "ethereum" := by
    intro kv hkv
    simp only [List.mem_singleton] at hkv
    subst hkv
    decide
  have h1 : (1 : ℚ) ≠ 0 := by norm_num
  exact ⟨hmsg, hinc, h1,
    (live_price_missing_id [] [("bitcoin", "123")] "ethereum" 1 "USD $" samplePage hmsg hinc h1).1,
    (live_price_missing_id [] [("bitcoin", "123")] "ethereum" 1 "USD $" samplePage hmsg hinc h1).2⟩

end Cryptgo
